import Mathlib

/-!
# Verification of the OpenAlex scraper against its specification

Shallow embedding of `openalex_scraper.py`.  Python values flowing through
the scraper are modelled by the `Json` type below; Python functions that can
raise are modelled in `Except String`; the two retrieval loops are modelled
as structural recursions over the (finite) trace of API responses, with the
random-number stream and the `random.sample` subset chooser passed in as
explicit parameters.
-/

/-- Model of a Python/JSON value as handled by the scraper. -/
inductive Json : Type where
  | null : Json
  | bool : Bool → Json
  | num : Int → Json
  | str : String → Json
  | arr : List Json → Json
  | obj : List (String × Json) → Json
deriving Repr

/-- Python truthiness test (`not x` in the source): `None`, `False`, `0`,
`""`, `[]` and `{}` are falsy. -/
def isFalsy : Json → Bool
  | Json.null => true
  | Json.bool b => !b
  | Json.num n => n == 0
  | Json.str s => s.isEmpty
  | Json.arr xs => xs.isEmpty
  | Json.obj kvs => kvs.isEmpty

/-- `d == {}` in Python: only the empty dict compares equal to `{}`. -/
def isEmptyDict : Json → Bool
  | Json.obj [] => true
  | _ => false

/-- `kvs.get(k, {})`: association-list lookup with `{}` as the default,
as used inside `safe_get`. -/
def dget (kvs : List (String × Json)) (k : String) : Json :=
  match kvs.find? (fun kv => kv.1 == k) with
  | some kv => kv.2
  | none => Json.obj []

/-- `safe_get(d, *keys)` from the source: walk the keys, substituting `{}`
for a missing key, bail out with `None` on a non-dict, and finally return
`None` instead of the reached value when that value is `{}`. -/
def safe_get : Json → List String → Option Json
  | d, [] => if isEmptyDict d then none else some d
  | Json.obj kvs, k :: ks => safe_get (dget kvs k) ks
  | _, _ :: _ => none

/-- Specification-side companion of `safe_get`: the raw value reached by the
same traversal (`none` exactly when a non-dict is entered while keys remain),
without the final empty-dict-to-`None` collapse.  Used to state what
`safe_get` returns. -/
def reach : Json → List String → Option Json
  | d, [] => some d
  | Json.obj kvs, k :: ks => reach (dget kvs k) ks
  | _, _ :: _ => none

/-! ## Abstract reconstruction (`extract_abstract`) -/

/-- Error-propagating map over a list, modelling a Python list comprehension
in which the body may raise. -/
def mapExcept (f : α → Except String β) : List α → Except String (List β)
  | [] => Except.ok []
  | x :: xs => do
    let y ← f x
    let ys ← mapExcept f xs
    Except.ok (y :: ys)

/-- Read a position list out of an inverted-index value: the Python code
iterates the value and uses each element as a list index, so anything other
than a list of ints is a type error. -/
def asPositions : Json → Except String (List Int)
  | Json.arr xs =>
    mapExcept (fun x => match x with
      | Json.num n => Except.ok n
      | _ => Except.error "TypeError") xs
  | _ => Except.error "TypeError"

/-- `abstract[pos] = word` with Python list-index semantics: negative
indices count from the end, out-of-range indices raise `IndexError`. -/
def setPos (slots : List String) (i : Int) (w : String) :
    Except String (List String) :=
  let j : Int := if i < 0 then i + slots.length else i
  if 0 ≤ j ∧ j < (slots.length : Int) then Except.ok (slots.set j.toNat w)
  else Except.error "IndexError"

/-- `for pos in positions: abstract[pos] = word`. -/
def placeWord (slots : List String) (w : String) :
    List Int → Except String (List String)
  | [] => Except.ok slots
  | p :: ps => do
    let slots' ← setPos slots p w
    placeWord slots' w ps

/-- `for word, positions in abstract_inverted_index.items(): ...`. -/
def placeAll (slots : List String) :
    List (String × List Int) → Except String (List String)
  | [] => Except.ok slots
  | (w, ps) :: rest => do
    let slots' ← placeWord slots w ps
    placeAll slots' rest

/-- The slot list built by `extract_abstract` for a non-falsy dict argument:
decode every position list, take the maximum position over all of them
(raising like Python `max` on an empty sequence), allocate `max+1` empty
slots and place every word at each of its positions. -/
def abstractSlots (kvs : List (String × Json)) : Except String (List String) := do
  let entries ← mapExcept (fun kv => do
    let ps ← asPositions kv.2
    Except.ok (kv.1, ps)) kvs
  match entries.foldr (fun e acc => e.2 ++ acc) [] with
  | [] => Except.error "ValueError: max() arg is an empty sequence"
  | p :: ps =>
    let maxPos := ps.foldl max p
    placeAll (List.replicate (maxPos + 1).toNat "") entries

/-- `extract_abstract(abstract_inverted_index)` from the source, applied to
the `Option Json` produced by `safe_get`: falsy input yields `""`, a dict is
reconstructed slot by slot and joined with single spaces, and anything else
raises when iterated. -/
def extract_abstract (o : Option Json) : Except String String :=
  match o with
  | none => Except.ok ""
  | some j =>
    if isFalsy j then Except.ok ""
    else
      match j with
      | Json.obj kvs => do
        let slots ← abstractSlots kvs
        Except.ok (String.intercalate " " slots)
      | _ => Except.error "TypeError"

/-! ## Record flattening (`extract_author_info`, `extract_paper_info`) -/

/-- `x or ''` applied to a `safe_get` result. -/
def orEmptyStr (o : Option Json) : Json :=
  match o with
  | none => Json.str ""
  | some v => if isFalsy v then Json.str "" else v

/-- `x or {}` applied to a `safe_get` result. -/
def orEmptyObj (o : Option Json) : Json :=
  match o with
  | none => Json.obj []
  | some v => if isFalsy v then Json.obj [] else v

/-- `(x or [])` followed by iteration in a list comprehension.  A falsy
value iterates as the empty list; a list iterates as itself.  Truthy
non-list values are modelled as type errors (Python would iterate the
characters of a string or the keys of a dict and then fail on the
attribute accesses applied to each element). -/
def pyIter (o : Option Json) : Except String (List Json) :=
  match o with
  | none => Except.ok []
  | some v =>
    if isFalsy v then Except.ok []
    else
      match v with
      | Json.arr xs => Except.ok xs
      | _ => Except.error "TypeError"

/-- Python `d.get(k, dflt)`: raises `AttributeError` when `d` is not a
dict. -/
def dict_get (j : Json) (k : String) (dflt : Json) : Except String Json :=
  match j with
  | Json.obj kvs =>
    Except.ok (match kvs.find? (fun kv => kv.1 == k) with
      | some kv => kv.2
      | none => dflt)
  | _ => Except.error "AttributeError"

/-- An element handed to `'; '.join(...)` must be a string. -/
def asStr : Json → Except String String
  | Json.str s => Except.ok s
  | _ => Except.error "TypeError"

/-- `safe_get` as it appears in field position of the produced row: the
Python `None` becomes `Json.null`. -/
def sgJ (paper : Json) (ks : List String) : Json :=
  match safe_get paper ks with
  | none => Json.null
  | some v => v

/-- `extract_author_info(auth)` from the source: the produced per-author
dict, or the exception Python would raise on a malformed authorship. -/
def extract_author_info (auth : Json) : Except String Json := do
  let authorV ← dict_get auth "author" (Json.obj [])
  let instTest ← dict_get auth "institutions" Json.null
  let institution ←
    if isFalsy instTest then Except.ok (Json.obj [])
    else
      match instTest with
      | Json.arr (x :: _) => Except.ok x
      | _ => Except.error "TypeError"
  let aname ← dict_get authorV "display_name" Json.null
  let iname ← dict_get institution "display_name" Json.null
  let itype ← dict_get institution "type" Json.null
  let icc ← dict_get institution "country_code" Json.null
  let corr ← dict_get auth "is_corresponding" (Json.bool false)
  let affs ← dict_get auth "raw_affiliation_strings" Json.null
  Except.ok (Json.obj [
    ("author_name", aname),
    ("institution", iname),
    ("institution_type", itype),
    ("country_code", icc),
    ("corresponding", corr),
    ("affiliation_strings", affs)])

/-- `'; '.join(l)`. -/
def joinSemi (l : List String) : String :=
  String.intercalate "; " l

/-- Per-entry string for the `concepts` and `keywords` joins:
`entry.get('display_name', '')`, which must be a string for the join. -/
def entryName (c : Json) : Except String String := do
  let v ← dict_get c "display_name" (Json.str "")
  asStr v

/-- Per-entry string for the topic-based joins:
`safe_get(topic, *path) or ''`, which must be a string for the join. -/
def topicName (path : List String) (t : Json) : Except String String :=
  asStr (orEmptyStr (safe_get t path))

/-- Per-entry string for the `referenced_works` join: `work or ''`. -/
def refName (w : Json) : Except String String :=
  asStr (if isFalsy w then Json.str "" else w)

/-- `extract_paper_info(paper)` from the source: the flat row it builds as a
Python dict (field order as in the source), or the exception Python would
raise on the first malformed nested value encountered. -/
def extract_paper_info (paper : Json) : Except String Json := do
  let abstract ← extract_abstract (safe_get paper ["abstract_inverted_index"])
  let authorships ← pyIter (safe_get paper ["authorships"])
  let keywords ← pyIter (safe_get paper ["keywords"])
  let concepts ← pyIter (safe_get paper ["concepts"])
  let topics ← pyIter (safe_get paper ["topics"])
  let affiliations ← mapExcept extract_author_info authorships
  let conceptNames ← mapExcept entryName concepts
  let keywordNames ← mapExcept entryName keywords
  let topicNames ← mapExcept (topicName ["display_name"]) topics
  let subfieldNames ← mapExcept (topicName ["subfield", "display_name"]) topics
  let fieldNames ← mapExcept (topicName ["field", "display_name"]) topics
  let domainNames ← mapExcept (topicName ["domain", "display_name"]) topics
  let refs ← pyIter (safe_get paper ["referenced_works"])
  let refNames ← mapExcept refName refs
  let funding ← pyIter (safe_get paper ["funding"])
  let fundingNames ← mapExcept (topicName ["display_name"]) funding
  Except.ok (Json.obj [
    ("id", sgJ paper ["id"]),
    ("doi", sgJ paper ["doi"]),
    ("title", sgJ paper ["title"]),
    ("abstract", Json.str abstract),
    ("publication_year", sgJ paper ["publication_year"]),
    ("publication_date", sgJ paper ["publication_date"]),
    ("created_date", sgJ paper ["created_date"]),
    ("type", sgJ paper ["type"]),
    ("cited_by_count", sgJ paper ["cited_by_count"]),
    ("is_retracted", sgJ paper ["is_retracted"]),
    ("is_paratext", sgJ paper ["is_paratext"]),
    ("journal", sgJ paper ["primary_location", "source", "display_name"]),
    ("author_count", Json.num authorships.length),
    ("open_access", sgJ paper ["open_access", "is_oa"]),
    ("oa_status", sgJ paper ["open_access", "oa_status"]),
    ("affiliations", Json.arr affiliations),
    ("concepts", Json.str (joinSemi conceptNames)),
    ("keywords", Json.str (joinSemi keywordNames)),
    ("topics", Json.str (joinSemi topicNames)),
    ("subfields", Json.str (joinSemi subfieldNames)),
    ("fields", Json.str (joinSemi fieldNames)),
    ("domains", Json.str (joinSemi domainNames)),
    ("referenced_works_count", Json.num refs.length),
    ("referenced_works", Json.str (joinSemi refNames)),
    ("funding_details", Json.str (joinSemi fundingNames)),
    ("license", sgJ paper ["open_access", "license"]),
    ("metrics", orEmptyObj (safe_get paper ["counts_by_year"])),
    ("host_venue_issn", sgJ paper ["primary_location", "source", "issn"]),
    ("publisher", sgJ paper ["primary_location", "source", "publisher"]),
    ("relevance_score", sgJ paper ["relevance_score"]),
    ("language", sgJ paper ["language"]),
    ("host_organization_name",
      sgJ paper ["primary_location", "source", "host_organization_name"]),
    ("is_accepted", sgJ paper ["primary_location", "is_accepted"]),
    ("type_crossref", sgJ paper ["type_crossref"]),
    ("indexed_in", sgJ paper ["indexed_in"])])

/-! ## Exhaustive retrieval (`fetch_papers`) -/

/-- Python `int()` applied to a (rational-valued model of a) float:
truncation toward zero. -/
def pyInt (q : ℚ) : ℤ :=
  if q < 0 then ⌈q⌉ else ⌊q⌋

/-- Python truthiness of the cursor value (`while cursor:`): absent (`None`)
and the empty string are falsy. -/
def cursorTruthy : Option String → Bool
  | none => false
  | some s => !s.isEmpty

/-- One successful API response in exhaustive mode: the `results` array, the
`meta.next_cursor` token and the `meta.count` total reported by the API. -/
structure ApiPage (α : Type) where
  results : List α
  next_cursor : Option String
  count : ℕ
deriving Repr, DecidableEq

/-- State of the exhaustive-mode loop, instrumented with the persistence
trace: `flushes` records, for every call to `save_results`, the buffer
length at flush time and the number of rows written. -/
structure AllState (α : Type) where
  all_results : List α
  saved_results : List α
  batch_results : List α
  file_counter : ℕ
  savedBatches : List (List α)
  flushes : List (ℕ × ℕ)
  pagesProcessed : ℕ
deriving Repr, DecidableEq

/-- Initial state of `fetch_papers`. -/
def initAllState (α : Type) : AllState α :=
  ⟨[], [], [], 1, [], [], 0⟩

/-- Threshold-triggered flush inside the exhaustive loop: keep a
`sampler`-chosen subset of size `int(len(batch) * percentage)`, extend
`saved_results`, write the batch file and clear the buffer. -/
def flushBatch (sampler : List α → ℕ → List α) (percentage : ℚ)
    (st : AllState α) : AllState α :=
  let n := st.batch_results.length
  let k := (pyInt ((n : ℚ) * percentage)).toNat
  let keep := sampler st.batch_results k
  { st with
    batch_results := [],
    saved_results := st.saved_results ++ keep,
    savedBatches := st.savedBatches ++ [keep],
    flushes := st.flushes ++ [(n, keep.length)],
    file_counter := st.file_counter + 1 }

/-- The `while cursor:` loop of `fetch_papers`, driven by the finite trace
of successful API responses (transport failures retry the same cursor and
are therefore invisible in the trace).  The loop stops when the cursor is
falsy, when a page comes back with empty `results`, or when the supplied
trace is exhausted. -/
def fetchPapersLoop (sampler : List α → ℕ → List α) (percentage : ℚ) :
    List (ApiPage α) → Option String → AllState α → AllState α
  | _, none, st => st
  | [], some _, st => st
  | p :: rest, some c, st =>
    if c.isEmpty then st
    else
      let st := { st with pagesProcessed := st.pagesProcessed + 1 }
      if p.results.isEmpty then st
      else
        let st := { st with
          all_results := st.all_results ++ p.results,
          batch_results := st.batch_results ++ p.results }
        let st :=
          if 10000 ≤ st.batch_results.length then flushBatch sampler percentage st
          else st
        fetchPapersLoop sampler percentage rest p.next_cursor st

/-- `fetch_papers` from the source: run the cursor loop from the `"*"`
sentinel and flush any remaining buffered records as a final
percentage-sampled batch. -/
def fetch_papers (sampler : List α → ℕ → List α) (percentage : ℚ)
    (pages : List (ApiPage α)) : AllState α :=
  let st := fetchPapersLoop sampler percentage pages (some "*") (initAllState α)
  if st.batch_results.isEmpty then st else flushBatch sampler percentage st

/-! ## Sampling retrieval (`fetch_random_papers`) -/

/-- One request actually issued in sampling mode: the seed sent, the value
of the `sample` parameter sent, and the number of records already retrieved
when the request was issued. -/
structure RandReq where
  seed : ℕ
  sample : ℕ
  totalBefore : ℕ
deriving Repr, DecidableEq

/-- State of the sampling-mode loop, instrumented with the request log and
the persistence trace. -/
structure RandState (α : Type) where
  all_results : List α
  batch_results : List α
  used_seeds : List ℕ
  sampleParam : ℕ
  requests : List RandReq
  savedBatches : List (List α)
  file_counter : ℕ
deriving Repr, DecidableEq

/-- Initial state of `fetch_random_papers`: the first request is prepared
with `sample = per_page = 200`. -/
def initRandState (α : Type) : RandState α :=
  ⟨[], [], [], 200, [], [], 1⟩

/-- The `while len(all_results) < max_papers:` loop of
`fetch_random_papers`, driven by the finite stream of values produced by
`random.randint` and by the API modelled as a function from (seed, sample
size) to the returned `results` array.  A seed already in `used_seeds` is
skipped; otherwise the request is issued and logged, empty results break
the loop, the cap check truncates `all_results` and breaks, a full buffer
is written out untrimmed, and the `sample` parameter is updated to
`min(per_page, max_papers - len(all_results))`. -/
def fetchRandomLoop (api : ℕ → ℕ → List α) (max_papers : ℕ) :
    List ℕ → RandState α → RandState α
  | [], st => st
  | s :: rest, st =>
    if st.all_results.length < max_papers then
      if s ∈ st.used_seeds then fetchRandomLoop api max_papers rest st
      else
        let st := { st with
          used_seeds := s :: st.used_seeds,
          requests := st.requests ++
            [⟨s, st.sampleParam, st.all_results.length⟩] }
        let results := api s st.sampleParam
        if results.isEmpty then st
        else
          let all := st.all_results ++ results
          let batch := st.batch_results ++ results
          if max_papers ≤ all.length then
            { st with all_results := all.take max_papers,
                      batch_results := batch }
          else
            let st :=
              if 10000 ≤ batch.length then
                { st with all_results := all, batch_results := [],
                          savedBatches := st.savedBatches ++ [batch],
                          file_counter := st.file_counter + 1 }
              else { st with all_results := all, batch_results := batch }
            fetchRandomLoop api max_papers rest
              { st with sampleParam := min 200 (max_papers - st.all_results.length) }
    else st

/-- `fetch_random_papers` from the source: run the seed loop and then write
any non-empty remaining buffer as a final batch file, without trimming it to
the cap. -/
def fetch_random_papers (api : ℕ → ℕ → List α) (max_papers : ℕ)
    (seedStream : List ℕ) : RandState α :=
  let st := fetchRandomLoop api max_papers seedStream (initRandState α)
  if st.batch_results.isEmpty then st
  else { st with savedBatches := st.savedBatches ++ [st.batch_results],
                 file_counter := st.file_counter + 1 }

/-! ## CLI percentage handling (`main`) -/

/-- The argparse default for `--percentage` in `main`: `default=1.0`. -/
def percentageDefault : ℚ := 1

/-- The validation in `main`: `parser.error` unless
`0.01 <= args.percentage <= 100`. -/
def percentageAccepted (p : ℚ) : Bool :=
  !(p < 1/100 || p > 100)

/-- The retention fraction handed to `fetch_papers` by `main`:
`args.percentage / 100`. -/
def retentionFraction (p : ℚ) : ℚ :=
  p / 100

/-! ## Claim theorems -/

/-- C10: `safe_get` is total (it is a function into `Option`), it returns
`none` exactly when the traversal either enters a non-dict while keys remain
or ends on the empty dict — so a key explicitly bound to `{}` is
indistinguishable from an absent key. -/
theorem safe_get_none_characterization :
    (∀ (d : Json) (ks : List String),
      safe_get d ks = none ↔
        (reach d ks = none ∨ reach d ks = some (Json.obj []))) ∧
    (∀ (kvs : List (String × Json)) (ks : List String) (k : String),
      (∀ kv ∈ kvs, kv.1 ≠ k) →
      safe_get (Json.obj ((k, Json.obj []) :: kvs)) (k :: ks) =
        safe_get (Json.obj kvs) (k :: ks)) := by
  constructor
  · intro d ks
    induction ks generalizing d with
    | nil =>
      cases d with
      | obj kvs =>
        cases kvs with
        | nil => simp [safe_get, reach, isEmptyDict]
        | cons kv rest => simp [safe_get, reach, isEmptyDict]
      | null => simp [safe_get, reach, isEmptyDict]
      | bool b => simp [safe_get, reach, isEmptyDict]
      | num n => simp [safe_get, reach, isEmptyDict]
      | str s => simp [safe_get, reach, isEmptyDict]
      | arr xs => simp [safe_get, reach, isEmptyDict]
    | cons k ks ih =>
      cases d with
      | obj kvs => simpa [safe_get, reach] using ih (dget kvs k)
      | null => simp [safe_get, reach]
      | bool b => simp [safe_get, reach]
      | num n => simp [safe_get, reach]
      | str s => simp [safe_get, reach]
      | arr xs => simp [safe_get, reach]
  · intro kvs ks k h
    have h1 : dget ((k, Json.obj []) :: kvs) k = Json.obj [] := by
      simp [dget, List.find?]
    have h2 : dget kvs k = Json.obj [] := by
      have : kvs.find? (fun kv => kv.1 == k) = none := by
        apply List.find?_eq_none.mpr
        intro kv hkv
        simp [h kv hkv]
      simp [dget, this]
    simp [safe_get, h1, h2]

/-- Witness for C10 at a concrete input: a key present with value `{}`
yields `none`, exactly as if the key were absent. -/
theorem safe_get_none_characterization_witness :
    safe_get (Json.obj [("a", Json.obj [])]) ["a"] = none ∧
    safe_get (Json.obj [("a", Json.obj [])]) ["a"] =
      safe_get (Json.obj []) ["a"] :=
  ⟨(safe_get_none_characterization.1 (Json.obj [("a", Json.obj [])])
      ["a"]).mpr (Or.inr rfl),
   safe_get_none_characterization.2 [] [] "a" (by simp)⟩

/-- Invariant carried through the sampling loop: the seeds of the issued
requests are pairwise distinct and all recorded in `used_seeds`. -/
def seedInv (st : RandState α) : Prop :=
  (st.requests.map RandReq.seed).Nodup ∧
  ∀ r ∈ st.requests, r.seed ∈ st.used_seeds

theorem fetchRandomLoop_seedInv (api : ℕ → ℕ → List α) (max_papers : ℕ)
    (seeds : List ℕ) (st : RandState α) (h : seedInv st) :
    seedInv (fetchRandomLoop api max_papers seeds st) := by
  induction seeds generalizing st with
  | nil => simpa [fetchRandomLoop] using h
  | cons s rest ih =>
    rw [fetchRandomLoop]
    by_cases hlt : st.all_results.length < max_papers
    · simp only [hlt, if_true]
      by_cases hmem : s ∈ st.used_seeds
      · simp only [hmem, if_true]
        exact ih st h
      · simp only [hmem, if_false]
        have h1 : seedInv ({ st with
            used_seeds := s :: st.used_seeds,
            requests := st.requests ++
              [⟨s, st.sampleParam, st.all_results.length⟩] } : RandState α) := by
          constructor
          · simp only [List.map_append, List.map_cons, List.map_nil]
            rw [List.nodup_append]
            refine ⟨h.1, List.nodup_singleton _, ?_⟩
            intro x hx hy
            simp only [List.mem_singleton] at hy
            obtain ⟨r, hr, hrs⟩ := List.mem_map.mp hx
            exact hmem (by rw [← hy, ← hrs]; exact h.2 r hr)
          · intro r hr
            rcases List.mem_append.mp hr with h' | h'
            · exact List.mem_cons_of_mem _ (h.2 r h')
            · simp only [List.mem_singleton] at h'
              subst h'
              exact List.mem_cons_self _ _
        split
        · exact h1
        · split
          · exact ⟨h1.1, h1.2⟩
          · split
            · exact ih _ ⟨h1.1, h1.2⟩
            · exact ih _ ⟨h1.1, h1.2⟩
    · simpa [hlt] using h

/-- C9: in sampling mode no seed is reused within one run — the seeds
carried by the successively issued requests are pairwise distinct. -/
theorem fetch_random_papers_seeds_nodup (api : ℕ → ℕ → List α)
    (max_papers : ℕ) (seedStream : List ℕ) :
    ((fetch_random_papers api max_papers seedStream).requests.map
      RandReq.seed).Nodup := by
  have h := fetchRandomLoop_seedInv api max_papers seedStream
    (initRandState α) (by constructor <;> simp [initRandState])
  rw [fetch_random_papers]
  split
  · exact h.1
  · exact h.1

set_option maxRecDepth 10000 in
/-- C1 (failing input): sampling mode with cap 50 against an API that
returns 200 results per sampled page.  Exactly one page is fetched with one
seed and the returned list is truncated to 50, but the final batch written
by the persistence step is the untrimmed 200-record buffer: 200 rows are
saved, not 50, even though the function reports `len(all_results) = 50` as
the number of saved results. -/
theorem fetch_random_papers_cap50_writes_200 :
    (fetch_random_papers (fun _ _ => List.range 200) 50 [42]).all_results.length
        = 50 ∧
    (fetch_random_papers (fun _ _ => List.range 200) 50 [42]).requests.length
        = 1 ∧
    (fetch_random_papers (fun _ _ => List.range 200) 50 [42]).used_seeds = [42] ∧
    ((fetch_random_papers (fun _ _ => List.range 200) 50 [42]).savedBatches.map
        List.length).sum = 200 ∧ (200 : ℕ) ≠ 50 := by
  refine ⟨rfl, rfl, rfl, rfl, by decide⟩

/-- C5 (failing input): the CLI percentage option.  The argparse default is
`1.0`, which `main` converts to the retention fraction `1/100`: by default
only 1% of each buffered batch is written, not 100% as the option's own help
text (`default: 100`) states; moreover the value `0.5`-percent — strictly
positive and below 100 — is rejected because the accepted range starts at
`0.01`. -/
theorem main_percentage_default_is_one_percent :
    percentageAccepted percentageDefault = true ∧
    retentionFraction percentageDefault = 1/100 ∧
    retentionFraction percentageDefault < 1 ∧
    percentageAccepted (1/200) = false ∧
    (0 : ℚ) < 1/200 ∧ (1/200 : ℚ) ≤ 100 := by
  refine ⟨by norm_num [percentageAccepted, percentageDefault],
    by norm_num [retentionFraction, percentageDefault],
    by norm_num [retentionFraction, percentageDefault],
    by norm_num [percentageAccepted],
    by norm_num, by norm_num⟩

set_option maxRecDepth 10000 in
/-- C7 (counterexample): with cap 50 and page size 200, the first request
issued carries `sample = 200`, not `min(200, 50 - 0) = 50`: the `sample`
parameter is only lowered to `min(per_page, cap - total)` after the first
response has been processed. -/
theorem fetch_random_papers_first_sample_not_min :
    (fetch_random_papers (fun _ _ => List.range 200) 50 [41]).requests =
      [⟨41, 200, 0⟩] ∧ (200 : ℕ) ≠ min 200 (50 - 0) := by
  refine ⟨rfl, by decide⟩

/-- The per-request property established for the sampling loop's request
log: the first request asks for a full page of 200 records; every later
request asks for `min(200, max_papers - total retrieved before the
request)`. -/
def reqProps (max_papers : ℕ) (l : List RandReq) : Prop :=
  ∀ i r, l[i]? = some r →
    (i = 0 → r.sample = 200 ∧ r.totalBefore = 0) ∧
    (i ≠ 0 → r.sample = min 200 (max_papers - r.totalBefore))

/-- Invariant carried through the sampling loop for the `sample`
parameter. -/
def sampleInv (max_papers : ℕ) (st : RandState α) : Prop :=
  (st.requests = [] → st.sampleParam = 200 ∧ st.all_results = ([] : List α)) ∧
  (st.requests ≠ [] →
    st.sampleParam = min 200 (max_papers - st.all_results.length)) ∧
  reqProps max_papers st.requests

theorem fetchRandomLoop_reqProps (api : ℕ → ℕ → List α) (max_papers : ℕ)
    (seeds : List ℕ) (st : RandState α) (h : sampleInv max_papers st) :
    reqProps max_papers (fetchRandomLoop api max_papers seeds st).requests := by
  induction seeds generalizing st with
  | nil => simpa [fetchRandomLoop] using h.2.2
  | cons s rest ih =>
    rw [fetchRandomLoop]
    by_cases hlt : st.all_results.length < max_papers
    · simp only [hlt, if_true]
      by_cases hmem : s ∈ st.used_seeds
      · simp only [hmem, if_true]
        exact ih st h
      · simp only [hmem, if_false]
        have hreq : reqProps max_papers (st.requests ++
            [⟨s, st.sampleParam, st.all_results.length⟩]) := by
          intro i r hi
          by_cases hlen : i < st.requests.length
          · rw [List.getElem?_append_left hlen] at hi
            exact h.2.2 i r hi
          · have hlen2 : i < st.requests.length + 1 := by
              have := List.getElem?_eq_some_iff.mp hi
              simpa using this.1
            have hi' : i = st.requests.length := by omega
            rw [List.getElem?_append_right (by omega)] at hi
            rw [hi'] at hi
            simp only [Nat.sub_self, List.getElem?_cons_zero] at hi
            injection hi with hi
            subst hi
            subst hi'
            constructor
            · intro h0
              have hnil : st.requests = [] := by
                cases hr : st.requests with
                | nil => rfl
                | cons a l => rw [hr] at h0; simp at h0
              obtain ⟨h200, hempty⟩ := h.1 hnil
              exact ⟨h200, by rw [hempty]; rfl⟩
            · intro h0
              have hne : st.requests ≠ [] := by
                intro hr
                rw [hr] at h0
                simp at h0
              exact h.2.1 hne
        split
        · exact hreq
        · split
          · exact hreq
          · split
            · exact ih _ ⟨fun hc => absurd hc (by simp), fun _ => rfl, hreq⟩
            · exact ih _ ⟨fun hc => absurd hc (by simp), fun _ => rfl, hreq⟩
    · simpa [hlt] using h.2.2

/-- C7 (amended): in sampling mode the first issued request always carries
`sample = per_page = 200`; every request after the first carries
`sample = min(200, cap - running total at the time of the request)`. -/
theorem fetch_random_papers_sample_params (api : ℕ → ℕ → List α)
    (max_papers : ℕ) (seedStream : List ℕ) (i : ℕ) (r : RandReq)
    (hi : (fetch_random_papers api max_papers seedStream).requests[i]? = some r) :
    (i = 0 → r.sample = 200 ∧ r.totalBefore = 0) ∧
    (i ≠ 0 → r.sample = min 200 (max_papers - r.totalBefore)) := by
  have h := fetchRandomLoop_reqProps api max_papers seedStream (initRandState α)
    ⟨fun _ => ⟨rfl, rfl⟩, fun hc => absurd rfl hc, by intro i r hi; simp [initRandState] at hi⟩
  rw [fetch_random_papers] at hi
  revert hi
  split
  · exact fun hi => h i r hi
  · exact fun hi => h i r hi

set_option maxRecDepth 10000 in
/-- Witness for C7 (amended): a run with cap 50 against an API returning 20
records per page issues a second request whose sample parameter is
`min(200, 50 - 20) = 30`. -/
theorem fetch_random_papers_sample_params_witness :
    ((fetch_random_papers (fun _ _ => List.range 20) 50 [1, 2, 3]).requests[1]? =
      some ⟨2, 30, 20⟩) ∧ ((1 : ℕ) ≠ 0 → (30 : ℕ) = min 200 (50 - 20)) :=
  ⟨rfl, (fetch_random_papers_sample_params (fun _ _ => List.range 20) 50 [1, 2, 3]
      1 ⟨2, 30, 20⟩ rfl).2⟩

/-- A page at which the exhaustive loop keeps going: non-empty results and
a truthy next cursor. -/
def nonTerminalPage (p : ApiPage α) : Bool :=
  !p.results.isEmpty && cursorTruthy p.next_cursor

theorem flushBatch_pagesProcessed (sampler : List α → ℕ → List α)
    (percentage : ℚ) (st : AllState α) :
    (flushBatch sampler percentage st).pagesProcessed = st.pagesProcessed := rfl

theorem flushBatch_all_results (sampler : List α → ℕ → List α)
    (percentage : ℚ) (st : AllState α) :
    (flushBatch sampler percentage st).all_results = st.all_results := rfl

theorem fetchPapersLoop_falsy (sampler : List α → ℕ → List α)
    (percentage : ℚ) (pages : List (ApiPage α)) (co : Option String)
    (st : AllState α) (h : cursorTruthy co = false) :
    fetchPapersLoop sampler percentage pages co st = st := by
  cases co with
  | none => cases pages <;> rfl
  | some c =>
    simp only [cursorTruthy, Bool.not_eq_false'] at h
    cases pages with
    | nil => rfl
    | cons p rest => rw [fetchPapersLoop]; simp [h]

theorem fetchPapersLoop_pages_processed (sampler : List α → ℕ → List α)
    (percentage : ℚ) (pages : List (ApiPage α)) (c : String)
    (hc : c.isEmpty = false) (st : AllState α) :
    (fetchPapersLoop sampler percentage pages (some c) st).pagesProcessed =
      st.pagesProcessed +
        min pages.length ((pages.takeWhile nonTerminalPage).length + 1) := by
  induction pages generalizing c st with
  | nil => simp [fetchPapersLoop]
  | cons p rest ih =>
    rw [fetchPapersLoop]
    rw [if_neg (by simp [hc])]
    by_cases hres : p.results.isEmpty
    · rw [if_pos hres]
      have htw : nonTerminalPage p = false := by
        simp [nonTerminalPage, hres]
      simp only [List.takeWhile_cons, htw]
      simp
    · rw [if_neg hres]
      cases hcur : p.next_cursor with
      | none =>
        rw [fetchPapersLoop_falsy _ _ _ _ _ (by simp [cursorTruthy])]
        have htw : nonTerminalPage p = false := by
          simp [nonTerminalPage, hres, hcur, cursorTruthy]
        simp only [List.takeWhile_cons, htw]
        simp only [apply_ite AllState.pagesProcessed, flushBatch_pagesProcessed]
        simp
      | some c' =>
        by_cases hc' : c'.isEmpty
        · rw [fetchPapersLoop_falsy _ _ _ _ _ (by simp [cursorTruthy, hc'])]
          have htw : nonTerminalPage p = false := by
            simp [nonTerminalPage, hres, hcur, cursorTruthy, hc']
          simp only [List.takeWhile_cons, htw]
          simp only [apply_ite AllState.pagesProcessed, flushBatch_pagesProcessed]
          simp
        · have hc'' : c'.isEmpty = false := by simpa using hc'
          have htw : nonTerminalPage p = true := by
            simp [nonTerminalPage, hres, hcur, cursorTruthy, hc'']
          simp only [List.takeWhile_cons, htw]
          rw [ih c' hc'']
          simp only [apply_ite AllState.pagesProcessed, flushBatch_pagesProcessed]
          simp
          omega

theorem fetchPapersLoop_all_results_le (sampler : List α → ℕ → List α)
    (percentage : ℚ) (pages : List (ApiPage α)) (co : Option String)
    (st : AllState α) :
    (fetchPapersLoop sampler percentage pages co st).all_results.length ≤
      st.all_results.length + (pages.map (fun p => p.results.length)).sum := by
  induction pages generalizing co st with
  | nil => cases co <;> simp [fetchPapersLoop]
  | cons p rest ih =>
    cases co with
    | none => simp [fetchPapersLoop]
    | some c =>
      rw [fetchPapersLoop]
      by_cases hc : c.isEmpty
      · rw [if_pos hc]
        simp only [List.map_cons, List.sum_cons]
        omega
      · rw [if_neg hc]
        by_cases hres : p.results.isEmpty
        · rw [if_pos hres]
          simp only [List.map_cons, List.sum_cons]
          omega
        · rw [if_neg hres]
          have hr := ih p.next_cursor
            (if 10000 ≤ (st.batch_results ++ p.results).length then
              flushBatch sampler percentage
                { st with all_results := st.all_results ++ p.results,
                          batch_results := st.batch_results ++ p.results,
                          pagesProcessed := st.pagesProcessed + 1 }
            else
                { st with all_results := st.all_results ++ p.results,
                          batch_results := st.batch_results ++ p.results,
                          pagesProcessed := st.pagesProcessed + 1 })
          refine le_trans hr ?_
          simp only [apply_ite AllState.all_results, flushBatch_all_results]
          simp only [List.map_cons, List.sum_cons, List.length_append]
          split <;> simp <;> omega

/-- C4 (amended): the exhaustive loop terminates exactly when the API
returns an empty results page or a falsy next cursor — it consumes
responses up to and including the first such terminal page, and all of them
when no terminal page occurs in the trace; the API-reported total count is
never consulted for termination, but whenever the API serves in total no
more than some bound `c` (in particular, no more than its reported count),
the accumulated records never exceed `c`. -/
theorem fetch_papers_terminates_on_empty_or_no_cursor {α : Type} :
    (∀ (sampler : List α → ℕ → List α) (percentage : ℚ)
      (pages : List (ApiPage α)),
      (fetch_papers sampler percentage pages).pagesProcessed =
        min pages.length ((pages.takeWhile nonTerminalPage).length + 1)) ∧
    (∀ (sampler : List α → ℕ → List α) (percentage : ℚ)
      (pages : List (ApiPage α)) (c : ℕ),
      (pages.map (fun p => p.results.length)).sum ≤ c →
      (fetch_papers sampler percentage pages).all_results.length ≤ c) := by
  constructor
  · intro sampler percentage pages
    rw [fetch_papers]
    split
    · rw [fetchPapersLoop_pages_processed sampler percentage pages "*" rfl]
      simp [initAllState]
    · rw [flushBatch_pagesProcessed]
      rw [fetchPapersLoop_pages_processed sampler percentage pages "*" rfl]
      simp [initAllState]
  · intro sampler percentage pages c hsum
    have h := fetchPapersLoop_all_results_le sampler percentage pages
      (some "*") (initAllState α)
    rw [fetch_papers]
    split
    · refine le_trans h ?_
      simpa [initAllState] using hsum
    · rw [flushBatch_all_results]
      refine le_trans h ?_
      simpa [initAllState] using hsum

/-- C4 (counterexample): an API trace that reports `count = 1` on every
page but keeps serving cursors and results.  After the first page the
running total equals the reported count, yet the loop goes on: it processes
all three pages and accumulates 2 records, exceeding the reported count
of 1. -/
theorem fetch_papers_exceeds_reported_count :
    (fetch_papers (fun (l : List ℕ) k => l.take k) 1
      [⟨[10], some "a", 1⟩, ⟨[20], some "b", 1⟩, ⟨[], none, 1⟩]).all_results.length
        = 2 ∧
    (fetch_papers (fun (l : List ℕ) k => l.take k) 1
      [⟨[10], some "a", 1⟩, ⟨[20], some "b", 1⟩, ⟨[], none, 1⟩]).pagesProcessed
        = 3 ∧
    ([⟨[10], some "a", 1⟩, ⟨[20], some "b", 1⟩,
      (⟨[], none, 1⟩ : ApiPage ℕ)].map ApiPage.count) = [1, 1, 1] ∧
    ¬(2 : ℕ) ≤ 1 := by
  exact ⟨rfl, rfl, rfl, by decide⟩

/-- Witness for C4 (amended) at a concrete trace: a single page of two
records followed by a null cursor is processed once, and with the API
serving 2 ≤ 5 records in total the accumulated length stays below 5. -/
theorem fetch_papers_terminates_witness :
    (List.map (fun p => p.results.length)
        [(⟨[7, 8], none, 5⟩ : ApiPage ℕ)]).sum ≤ 5 ∧
    (fetch_papers (fun (l : List ℕ) k => l.take k) 1
      [(⟨[7, 8], none, 5⟩ : ApiPage ℕ)]).all_results.length ≤ 5 :=
  ⟨by decide, fetch_papers_terminates_on_empty_or_no_cursor.2
    (fun l k => l.take k) 1 [⟨[7, 8], none, 5⟩] 5 (by decide)⟩

/-- The per-flush property of the exhaustive-mode persistence trace: each
batch of `n` buffered records yields exactly `int(n * percentage)` written
rows. -/
def flushesOk (percentage : ℚ) (l : List (ℕ × ℕ)) : Prop :=
  ∀ e ∈ l, e.2 = (pyInt ((e.1 : ℚ) * percentage)).toNat

theorem pyInt_mul_le (n : ℕ) (f : ℚ) (h0 : 0 ≤ f) (h1 : f ≤ 1) :
    (pyInt ((n : ℚ) * f)).toNat ≤ n := by
  have hnn : (0 : ℚ) ≤ (n : ℚ) * f := mul_nonneg (by positivity) h0
  rw [pyInt, if_neg (not_lt.mpr hnn)]
  have hle : (n : ℚ) * f ≤ (n : ℚ) := by
    calc (n : ℚ) * f ≤ (n : ℚ) * 1 := mul_le_mul_of_nonneg_left h1 (by positivity)
      _ = (n : ℚ) := mul_one _
  have hfl : ⌊(n : ℚ) * f⌋ ≤ (n : ℤ) := by
    have := Int.floor_le_floor hle
    simpa using this
  omega

theorem flushBatch_flushesOk (sampler : List α → ℕ → List α)
    (percentage : ℚ) (st : AllState α)
    (hs : ∀ l k, k ≤ l.length → (sampler l k).length = k)
    (h0 : 0 ≤ percentage) (h1 : percentage ≤ 1)
    (h : flushesOk percentage st.flushes) :
    flushesOk percentage (flushBatch sampler percentage st).flushes := by
  intro e he
  rw [flushBatch] at he
  simp only [List.mem_append, List.mem_singleton] at he
  rcases he with he | he
  · exact h e he
  · subst he
    simp only
    rw [hs st.batch_results _ (pyInt_mul_le st.batch_results.length percentage h0 h1)]

theorem fetchPapersLoop_flushesOk (sampler : List α → ℕ → List α)
    (percentage : ℚ) (pages : List (ApiPage α)) (co : Option String)
    (st : AllState α)
    (hs : ∀ l k, k ≤ l.length → (sampler l k).length = k)
    (h0 : 0 ≤ percentage) (h1 : percentage ≤ 1)
    (h : flushesOk percentage st.flushes) :
    flushesOk percentage
      (fetchPapersLoop sampler percentage pages co st).flushes := by
  induction pages generalizing co st with
  | nil => cases co <;> simpa [fetchPapersLoop] using h
  | cons p rest ih =>
    cases co with
    | none => simpa [fetchPapersLoop] using h
    | some c =>
      rw [fetchPapersLoop]
      by_cases hc : c.isEmpty
      · rw [if_pos hc]; exact h
      · rw [if_neg hc]
        by_cases hres : p.results.isEmpty
        · rw [if_pos hres]; exact h
        · rw [if_neg hres]
          apply ih
          split
          · exact flushBatch_flushesOk sampler percentage _ hs h0 h1 h
          · exact h

/-- C6: in exhaustive mode with retention fraction `percentage`, every
flushed batch — both threshold-triggered flushes and the final flush on
loop exit — writes exactly `int(N * percentage)` rows out of the `N`
records buffered at flush time, the subset being chosen by the
`random.sample` oracle passed in as `sampler`. -/
theorem fetch_papers_flush_rows (sampler : List α → ℕ → List α)
    (percentage : ℚ) (pages : List (ApiPage α))
    (hs : ∀ l k, k ≤ l.length → (sampler l k).length = k)
    (h0 : 0 ≤ percentage) (h1 : percentage ≤ 1) :
    ∀ e ∈ (fetch_papers sampler percentage pages).flushes,
      e.2 = (pyInt ((e.1 : ℚ) * percentage)).toNat := by
  have h := fetchPapersLoop_flushesOk sampler percentage pages (some "*")
    (initAllState α) hs h0 h1 (by intro e he; simp [initAllState] at he)
  rw [fetch_papers]
  split
  · exact h
  · exact flushBatch_flushesOk sampler percentage _ hs h0 h1 h

/-- Witness for C6 at a concrete run: a final flush of a 2-record buffer
with retention fraction 1/2 writes exactly `int(2 * 1/2) = 1` row. -/
theorem fetch_papers_flush_rows_witness :
    (fetch_papers (fun (l : List ℕ) k => l.take k) (1/2)
      [⟨[10, 20], none, 2⟩]).flushes = [(2, 1)] ∧
    (∀ e ∈ (fetch_papers (fun (l : List ℕ) k => l.take k) (1/2)
      [⟨[10, 20], none, 2⟩]).flushes,
      e.2 = (pyInt ((e.1 : ℚ) * (1/2))).toNat) :=
  ⟨by norm_num [fetch_papers, fetchPapersLoop, flushBatch, initAllState, pyInt,
      show "*".isEmpty = false from rfl, show ([10, 20] : List ℕ).isEmpty = false from rfl],
   fetch_papers_flush_rows (fun l k => l.take k) (1/2) [⟨[10, 20], none, 2⟩]
    (fun l k hk => by simpa using hk) (by norm_num) (by norm_num)⟩

/-! ### Machinery for the abstract-reconstruction claims -/

theorem mapExcept_ok (f : α → Except String β) (Q : β → Prop) (l : List α)
    (h : ∀ x ∈ l, ∃ y, f x = Except.ok y ∧ Q y) :
    ∃ ys, mapExcept f l = Except.ok ys ∧ ys.length = l.length ∧
      ∀ y ∈ ys, Q y := by
  induction l with
  | nil => exact ⟨[], rfl, rfl, by simp⟩
  | cons x xs ih =>
    obtain ⟨y, hy, hQ⟩ := h x (List.mem_cons_self x xs)
    obtain ⟨ys, hys, hlen, hQs⟩ := ih (fun a ha => h a (List.mem_cons_of_mem x ha))
    refine ⟨y :: ys, ?_, by simp [hlen], ?_⟩
    · rw [mapExcept, hy, hys]
      rfl
    · intro z hz
      rcases List.mem_cons.mp hz with hz | hz
      · exact hz ▸ hQ
      · exact hQs z hz

theorem asPositions_map_num (ps : List Int) :
    asPositions (Json.arr (ps.map Json.num)) = Except.ok ps := by
  rw [asPositions]
  induction ps with
  | nil => rfl
  | cons p ps ih =>
    simp only [List.map_cons, mapExcept]
    rw [show (mapExcept (fun x => match x with
      | Json.num n => Except.ok n
      | x => Except.error "TypeError") (List.map Json.num ps)) = Except.ok ps from ih]
    rfl

/-- The encoding of a decoded inverted index back into `Json`. -/
def encodeIndex (entries : List (String × List Int)) : List (String × Json) :=
  entries.map fun e => (e.1, Json.arr (e.2.map Json.num))

theorem decode_encodeIndex (entries : List (String × List Int)) :
    mapExcept (fun kv => do
      let ps ← asPositions kv.2
      Except.ok (kv.1, ps)) (encodeIndex entries) = Except.ok entries := by
  induction entries with
  | nil => rfl
  | cons e rest ih =>
    simp only [encodeIndex, List.map_cons, mapExcept]
    rw [asPositions_map_num]
    simp only [encodeIndex] at ih
    rw [ih]
    rfl

theorem left_le_foldl_max (ps : List Int) (p : Int) : p ≤ ps.foldl max p := by
  induction ps generalizing p with
  | nil => exact le_refl p
  | cons q ps ih =>
    exact le_trans (le_max_left p q) (ih (max p q))

theorem mem_le_foldl_max (ps : List Int) (p q : Int) (h : q ∈ ps) :
    q ≤ ps.foldl max p := by
  induction ps generalizing p with
  | nil => cases h
  | cons x ps ih =>
    rcases List.mem_cons.mp h with h | h
    · subst h
      exact le_trans (le_max_right p q) (left_le_foldl_max ps (max p q))
    · exact ih (max p x) h

/-- All positions of all entries, in iteration order — the sequence whose
maximum the source computes. -/
def positionsOf (entries : List (String × List Int)) : List Int :=
  entries.foldr (fun e acc => e.2 ++ acc) []

/-- The maximum position as computed by the source (`max(...)` over the
flattened position lists; the list must be non-empty). -/
def maxPosition : List Int → Int
  | [] => 0
  | p :: ps => ps.foldl max p

theorem mem_positionsOf {entries : List (String × List Int)}
    {e : String × List Int} (he : e ∈ entries) {p : Int} (hp : p ∈ e.2) :
    p ∈ positionsOf entries := by
  induction entries with
  | nil => cases he
  | cons x rest ih =>
    rcases List.mem_cons.mp he with h | h
    · subst h
      exact List.mem_append.mpr (Or.inl hp)
    · exact List.mem_append.mpr (Or.inr (ih h))

theorem le_maxPosition {ps : List Int} {q : Int} (h : q ∈ ps) :
    q ≤ maxPosition ps := by
  cases ps with
  | nil => cases h
  | cons p ps =>
    rcases List.mem_cons.mp h with h | h
    · subst h
      exact left_le_foldl_max ps q
    · exact mem_le_foldl_max ps p q h

theorem placeWord_spec (slots : List String) (w : String) (ps : List Int)
    (h : ∀ p ∈ ps, 0 ≤ p ∧ p.toNat < slots.length) :
    ∃ r, placeWord slots w ps = Except.ok r ∧ r.length = slots.length ∧
      (∀ p ∈ ps, r[p.toNat]? = some w) ∧
      (∀ i : ℕ, (∀ p ∈ ps, p.toNat ≠ i) → r[i]? = slots[i]?) := by
  induction ps generalizing slots with
  | nil => exact ⟨slots, rfl, rfl, by simp, fun i _ => rfl⟩
  | cons p ps ih =>
    obtain ⟨hp0, hplen⟩ := h p (List.mem_cons_self p ps)
    have hset : setPos slots p w = Except.ok (slots.set p.toNat w) := by
      rw [setPos]
      rw [if_neg (not_lt.mpr hp0)]
      rw [if_pos ⟨hp0, by omega⟩]
    obtain ⟨r, hr, hrlen, hrget, hrother⟩ := ih (slots.set p.toNat w)
      (fun q hq => by
        obtain ⟨hq0, hqlen⟩ := h q (List.mem_cons_of_mem p hq)
        exact ⟨hq0, by simpa using hqlen⟩)
    refine ⟨r, ?_, by simpa using hrlen, ?_, ?_⟩
    · rw [placeWord, hset]
      exact hr
    · intro q hq
      rcases List.mem_cons.mp hq with hq | hq
      · subst hq
        by_cases hmem : ∃ q' ∈ ps, q'.toNat = q.toNat
        · obtain ⟨q', hq', hq'eq⟩ := hmem
          rw [← hq'eq]
          exact hrget q' hq'
        · push_neg at hmem
          rw [hrother q.toNat hmem]
          rw [List.getElem?_set_self]
          simp [hplen]
      · exact hrget q hq
    · intro i hi
      rw [hrother i (fun q hq => hi q (List.mem_cons_of_mem p hq))]
      rw [List.getElem?_set_ne (hi p (List.mem_cons_self p ps))]

theorem placeAll_spec (slots : List String)
    (entries : List (String × List Int))
    (hb : ∀ e ∈ entries, ∀ p ∈ e.2, 0 ≤ p ∧ p.toNat < slots.length)
    (hdisj : entries.Pairwise fun a b => ∀ p ∈ a.2, p ∉ b.2) :
    ∃ r, placeAll slots entries = Except.ok r ∧ r.length = slots.length ∧
      (∀ e ∈ entries, ∀ p ∈ e.2, r[p.toNat]? = some e.1) ∧
      (∀ i : ℕ, (∀ e ∈ entries, ∀ p ∈ e.2, p.toNat ≠ i) →
        r[i]? = slots[i]?) := by
  induction entries generalizing slots with
  | nil => exact ⟨slots, rfl, rfl, by simp, fun i _ => rfl⟩
  | cons e rest ih =>
    obtain ⟨r1, hr1, hr1len, hr1get, hr1other⟩ :=
      placeWord_spec slots e.1 e.2 (hb e (List.mem_cons_self e rest))
    obtain ⟨r, hr, hrlen, hrget, hrother⟩ := ih r1
      (fun e' he' q hq => by
        obtain ⟨hq0, hqlen⟩ := hb e' (List.mem_cons_of_mem e he') q hq
        exact ⟨hq0, by omega⟩)
      (List.Pairwise.of_cons hdisj)
    refine ⟨r, ?_, by omega, ?_, ?_⟩
    · cases e with
      | mk w ps =>
        rw [placeAll, hr1]
        exact hr
    · intro e' he' p hp
      rcases List.mem_cons.mp he' with he' | he'
      · subst he'
        have huntouched : ∀ e'' ∈ rest, ∀ q ∈ e''.2, q.toNat ≠ p.toNat := by
          intro e'' he'' q hq hqe
          have hdisj' := (List.pairwise_cons.mp hdisj).1 e'' he'' p hp
          have hq0 : 0 ≤ q := (hb e'' (List.mem_cons_of_mem e' he'') q hq).1
          have hp0 : 0 ≤ p := (hb e' (List.mem_cons_self e' rest) p hp).1
          have : q = p := by omega
          exact hdisj' (this ▸ hq)
        rw [hrother p.toNat huntouched]
        exact hr1get p hp
      · exact hrget e' he' p hp
    · intro i hi
      rw [hrother i (fun e' he' q hq =>
        hi e' (List.mem_cons_of_mem e he') q hq)]
      exact hr1other i (fun q hq => hi e (List.mem_cons_self e rest) q hq)

theorem positionsOf_ne_nil {entries : List (String × List Int)}
    (h : ∃ e ∈ entries, e.2 ≠ []) : positionsOf entries ≠ [] := by
  obtain ⟨e, he, hne⟩ := h
  cases hq : e.2 with
  | nil => exact absurd hq hne
  | cons q qs =>
    exact List.ne_nil_of_mem (mem_positionsOf he (hq ▸ List.mem_cons_self q qs))

theorem except_bind_ok (a : α) (f : α → Except String β) :
    (Except.ok a >>= f) = f a := rfl

theorem placeAll_ok (slots : List String)
    (entries : List (String × List Int))
    (hb : ∀ e ∈ entries, ∀ p ∈ e.2, 0 ≤ p ∧ p.toNat < slots.length) :
    ∃ r, placeAll slots entries = Except.ok r ∧ r.length = slots.length := by
  induction entries generalizing slots with
  | nil => exact ⟨slots, rfl, rfl⟩
  | cons e rest ih =>
    obtain ⟨r1, hr1, hr1len, _, _⟩ :=
      placeWord_spec slots e.1 e.2 (hb e (List.mem_cons_self e rest))
    obtain ⟨r, hr, hrlen⟩ := ih r1
      (fun e' he' q hq => by
        obtain ⟨hq0, hqlen⟩ := hb e' (List.mem_cons_of_mem e he') q hq
        exact ⟨hq0, by omega⟩)
    refine ⟨r, ?_, by omega⟩
    cases e with
    | mk w ps =>
      rw [placeAll, hr1]
      exact hr

theorem maxPosition_nonneg {entries : List (String × List Int)}
    (hpos : ∀ e ∈ entries, ∀ p ∈ e.2, 0 ≤ p)
    (hsome : ∃ e ∈ entries, e.2 ≠ []) :
    0 ≤ maxPosition (positionsOf entries) := by
  obtain ⟨e, he, hne⟩ := hsome
  cases hq : e.2 with
  | nil => exact absurd hq hne
  | cons q qs =>
    have hq0 : 0 ≤ q := hpos e he q (hq ▸ List.mem_cons_self q qs)
    exact le_trans hq0
      (le_maxPosition (mem_positionsOf he (hq ▸ List.mem_cons_self q qs)))

theorem position_bound {entries : List (String × List Int)}
    (hpos : ∀ e ∈ entries, ∀ p ∈ e.2, 0 ≤ p)
    (hsome : ∃ e ∈ entries, e.2 ≠ [])
    {e : String × List Int} (he : e ∈ entries) {p : Int} (hp : p ∈ e.2) :
    0 ≤ p ∧ p.toNat <
      (List.replicate (maxPosition (positionsOf entries) + 1).toNat "").length := by
  have hp0 : 0 ≤ p := hpos e he p hp
  have hle : p ≤ maxPosition (positionsOf entries) :=
    le_maxPosition (mem_positionsOf he hp)
  have h0 := maxPosition_nonneg hpos hsome
  rw [List.length_replicate]
  omega

theorem abstractSlots_spec (entries : List (String × List Int))
    (hpos : ∀ e ∈ entries, ∀ p ∈ e.2, 0 ≤ p)
    (hsome : ∃ e ∈ entries, e.2 ≠ [])
    (hdisj : entries.Pairwise fun a b => ∀ p ∈ a.2, p ∉ b.2) :
    ∃ slots, abstractSlots (encodeIndex entries) = Except.ok slots ∧
      (slots.length : Int) = maxPosition (positionsOf entries) + 1 ∧
      ∀ e ∈ entries, ∀ p ∈ e.2, slots[p.toNat]? = some e.1 := by
  obtain ⟨r, hr, hrlen, hrget, _⟩ := placeAll_spec
    (List.replicate (maxPosition (positionsOf entries) + 1).toNat "") entries
    (fun e he p hp => position_bound hpos hsome he hp) hdisj
  refine ⟨r, ?_, ?_, hrget⟩
  · rw [abstractSlots, decode_encodeIndex, except_bind_ok]
    cases hps : positionsOf entries with
    | nil => exact absurd hps (positionsOf_ne_nil hsome)
    | cons p ps =>
      rw [show entries.foldr (fun e acc => e.2 ++ acc) ([] : List Int) =
        positionsOf entries from rfl, hps]
      rw [show maxPosition (positionsOf entries) = ps.foldl max p from by
        rw [hps]; rfl] at hr
      exact hr
  · rw [hrlen, List.length_replicate]
    have h0 := maxPosition_nonneg hpos hsome
    omega

theorem abstractSlots_ok (entries : List (String × List Int))
    (hpos : ∀ e ∈ entries, ∀ p ∈ e.2, 0 ≤ p)
    (hsome : ∃ e ∈ entries, e.2 ≠ []) :
    ∃ slots, abstractSlots (encodeIndex entries) = Except.ok slots := by
  obtain ⟨r, hr, hrlen⟩ := placeAll_ok
    (List.replicate (maxPosition (positionsOf entries) + 1).toNat "") entries
    (fun e he p hp => position_bound hpos hsome he hp)
  refine ⟨r, ?_⟩
  rw [abstractSlots, decode_encodeIndex, except_bind_ok]
  cases hps : positionsOf entries with
  | nil => exact absurd hps (positionsOf_ne_nil hsome)
  | cons p ps =>
    rw [show entries.foldr (fun e acc => e.2 ++ acc) ([] : List Int) =
      positionsOf entries from rfl, hps]
    rw [show maxPosition (positionsOf entries) = ps.foldl max p from by
      rw [hps]; rfl] at hr
    exact hr

/-- C3 (amended): for a non-empty inverted index with non-empty,
non-negative position lists that are disjoint across tokens,
`extract_abstract` computes the maximum position `M` over all tokens,
allocates `M + 1` empty slots, places each token at each of its listed
positions and joins the slots with single spaces, so the slot (the
space-delimited token) at every listed position equals the indexed word;
an empty or absent index yields `""`, and `{"hello": [0]}` reconstructs to
`"hello"`.  Without the disjointness proviso a later token overwrites an
earlier one at a shared position. -/
theorem extract_abstract_tokens (entries : List (String × List Int))
    (hne : entries ≠ [])
    (hpos : ∀ e ∈ entries, e.2 ≠ [] ∧ ∀ p ∈ e.2, 0 ≤ p)
    (hdisj : entries.Pairwise fun a b => ∀ p ∈ a.2, p ∉ b.2) :
    (∃ slots,
      abstractSlots (encodeIndex entries) = Except.ok slots ∧
      extract_abstract (some (Json.obj (encodeIndex entries))) =
        Except.ok (String.intercalate " " slots) ∧
      (slots.length : Int) = maxPosition (positionsOf entries) + 1 ∧
      (∀ e ∈ entries, ∀ p ∈ e.2, slots[p.toNat]? = some e.1)) ∧
    extract_abstract none = Except.ok "" ∧
    extract_abstract (some (Json.obj [])) = Except.ok "" ∧
    extract_abstract (some (Json.obj [("hello", Json.arr [Json.num 0])])) =
      Except.ok "hello" := by
  have hsome : ∃ e ∈ entries, e.2 ≠ [] := by
    cases entries with
    | nil => exact absurd rfl hne
    | cons e rest =>
      exact ⟨e, List.mem_cons_self e rest, (hpos e (List.mem_cons_self e rest)).1⟩
  obtain ⟨slots, hslots, hlen, hget⟩ :=
    abstractSlots_spec entries (fun e he p hp => (hpos e he).2 p hp) hsome hdisj
  refine ⟨⟨slots, hslots, ?_, hlen, hget⟩, rfl, rfl, rfl⟩
  have hfal : isFalsy (Json.obj (encodeIndex entries)) = false := by
    cases entries with
    | nil => exact absurd rfl hne
    | cons e rest => simp [encodeIndex, isFalsy]
  rw [extract_abstract]
  rw [if_neg (by simp [hfal])]
  rw [hslots, except_bind_ok]

/-- C3 (counterexample): two tokens sharing the listed position 0.  The
token written last wins, so the reconstructed abstract is `"b"` although
position 0 is listed for `"a"` as well — the token at a listed position
does not always equal the indexed word. -/
theorem extract_abstract_overlap :
    extract_abstract (some (Json.obj [("a", Json.arr [Json.num 0]),
      ("b", Json.arr [Json.num 0])])) = Except.ok "b" ∧ "b" ≠ "a" :=
  ⟨rfl, by decide⟩

/-- Witness for C3 (amended) at the single-token index `{"hello": [0]}`. -/
theorem extract_abstract_tokens_witness :
    (∃ slots,
      abstractSlots (encodeIndex [("hello", [(0 : Int)])]) = Except.ok slots ∧
      extract_abstract (some (Json.obj (encodeIndex [("hello", [(0 : Int)])]))) =
        Except.ok (String.intercalate " " slots) ∧
      (slots.length : Int) =
        maxPosition (positionsOf [("hello", [(0 : Int)])]) + 1 ∧
      (∀ e ∈ [("hello", [(0 : Int)])], ∀ p ∈ e.2,
        slots[p.toNat]? = some e.1)) ∧
    extract_abstract none = Except.ok "" ∧
    extract_abstract (some (Json.obj [])) = Except.ok "" ∧
    extract_abstract (some (Json.obj [("hello", Json.arr [Json.num 0])])) =
      Except.ok "hello" :=
  extract_abstract_tokens [("hello", [0])] (by simp)
    (by intro e he; simp at he; simp [he]) (by simp)

/-! ### A class of records on which flattening provably succeeds -/

/-- `true` on dicts. -/
def isObjB : Json → Bool
  | Json.obj _ => true
  | _ => false

/-- `true` on strings. -/
def isStrB : Json → Bool
  | Json.str _ => true
  | _ => false

/-- `true` on arrays. -/
def isArrB : Json → Bool
  | Json.arr _ => true
  | _ => false

/-- A `safe_get` result that feeds `(x or '')` into a `'; '.join`: absent,
falsy, or a string. -/
def tameStrOpt (o : Option Json) : Bool :=
  match o with
  | none => true
  | some v => isFalsy v || isStrB v

/-- A value used as a multi-valued list: absent, falsy, or an array whose
elements satisfy `elemOk`. -/
def tameListVal (elemOk : Json → Bool) (o : Option Json) : Bool :=
  match o with
  | none => true
  | some v =>
    isFalsy v ||
      (match v with
       | Json.arr xs => xs.all elemOk
       | _ => false)

/-- A `concepts`/`keywords` entry: a dict whose `display_name`, when
present, is a string. -/
def tameNamedEntry (c : Json) : Bool :=
  match c with
  | Json.obj kvs =>
    (match kvs.find? (fun kv => kv.1 == "display_name") with
     | some kv => isStrB kv.2
     | none => true)
  | _ => false

/-- A `topics` entry: the four display-name paths feed the joins. -/
def tameTopicEntry (t : Json) : Bool :=
  tameStrOpt (safe_get t ["display_name"]) &&
  tameStrOpt (safe_get t ["subfield", "display_name"]) &&
  tameStrOpt (safe_get t ["field", "display_name"]) &&
  tameStrOpt (safe_get t ["domain", "display_name"])

/-- A `referenced_works` entry: falsy or a string. -/
def tameRefEntry (w : Json) : Bool :=
  isFalsy w || isStrB w

/-- A `funding` entry. -/
def tameFundEntry (f : Json) : Bool :=
  tameStrOpt (safe_get f ["display_name"])

/-- An authorship entry: a dict whose `author` (when present) is a dict
and whose `institutions` (when present and truthy) is an array headed by a
dict. -/
def tameAuthEntry (a : Json) : Bool :=
  match a with
  | Json.obj kvs =>
    (match kvs.find? (fun kv => kv.1 == "author") with
     | some kv => isObjB kv.2
     | none => true) &&
    (match kvs.find? (fun kv => kv.1 == "institutions") with
     | some kv =>
       isFalsy kv.2 ||
         (match kv.2 with
          | Json.arr (x :: _) => isObjB x
          | _ => false)
     | none => true)
  | _ => false

/-- One position value of a well-shaped inverted index: a non-negative
integer. -/
def tameIndexElem (x : Json) : Bool :=
  match x with
  | Json.num n => decide (0 ≤ n)
  | _ => false

/-- One entry of a well-shaped inverted index: its value is an array of
non-negative integers. -/
def tameIndexEntry (kv : String × Json) : Bool :=
  match kv.2 with
  | Json.arr xs => xs.all tameIndexElem
  | _ => false

/-- An entry contributing at least one position. -/
def tameIndexNonempty (kv : String × Json) : Bool :=
  match kv.2 with
  | Json.arr (_ :: _) => true
  | _ => false

/-- An inverted-index value that reconstructs without error: absent, falsy,
or a dict whose values are all arrays of non-negative integers with at
least one position overall. -/
def tameIndexVal (o : Option Json) : Bool :=
  match o with
  | none => true
  | some v =>
    isFalsy v ||
      (match v with
       | Json.obj kvs => kvs.all tameIndexEntry && kvs.any tameIndexNonempty
       | _ => false)

/-- The record class over which flattening is proved total: the
irregularities listed by the specification — missing nested keys,
non-mapping values at the safe-path lookups, empty multi-valued lists —
are all allowed; the entries of the multi-valued lists themselves and the
inverted index must be well-shaped. -/
def tamePaper (paper : Json) : Bool :=
  tameIndexVal (safe_get paper ["abstract_inverted_index"]) &&
  tameListVal tameAuthEntry (safe_get paper ["authorships"]) &&
  tameListVal tameNamedEntry (safe_get paper ["keywords"]) &&
  tameListVal tameNamedEntry (safe_get paper ["concepts"]) &&
  tameListVal tameTopicEntry (safe_get paper ["topics"]) &&
  tameListVal tameRefEntry (safe_get paper ["referenced_works"]) &&
  tameListVal tameFundEntry (safe_get paper ["funding"])

theorem isObjB_shape {v : Json} (h : isObjB v = true) :
    ∃ kvs, v = Json.obj kvs := by
  match v, h with
  | Json.obj kvs, _ => exact ⟨kvs, rfl⟩

theorem isStrB_shape {v : Json} (h : isStrB v = true) :
    ∃ s, v = Json.str s := by
  match v, h with
  | Json.str s, _ => exact ⟨s, rfl⟩

theorem pyIter_ok (elemOk : Json → Bool) (o : Option Json)
    (h : tameListVal elemOk o = true) :
    ∃ xs, pyIter o = Except.ok xs ∧ ∀ x ∈ xs, elemOk x = true := by
  match o with
  | none => exact ⟨[], rfl, by simp⟩
  | some v =>
    rw [show pyIter (some v) =
      (if isFalsy v then Except.ok [] else
        match v with
        | Json.arr xs => Except.ok xs
        | _ => Except.error "TypeError") from rfl]
    by_cases hf : isFalsy v
    · rw [if_pos hf]
      exact ⟨[], rfl, by simp⟩
    · rw [if_neg hf]
      simp only [tameListVal, hf, Bool.false_or] at h
      match v, h with
      | Json.arr xs, h =>
        exact ⟨xs, rfl, by simpa [List.all_eq_true] using h⟩

theorem asStr_ok (v : Json) (h : isStrB v = true) :
    ∃ s, asStr v = Except.ok s := by
  obtain ⟨s, rfl⟩ := isStrB_shape h
  exact ⟨s, rfl⟩

theorem entryName_ok (c : Json) (h : tameNamedEntry c = true) :
    ∃ s, entryName c = Except.ok s := by
  match c, h with
  | Json.obj kvs, h =>
    simp only [tameNamedEntry] at h
    rw [show entryName (Json.obj kvs) =
      asStr (match kvs.find? (fun kv => kv.1 == "display_name") with
        | some kv => kv.2
        | none => Json.str "") from rfl]
    match hf : kvs.find? (fun kv => kv.1 == "display_name") with
    | some kv =>
      rw [hf] at h ⊢
      have h' : isStrB kv.2 = true := h
      exact asStr_ok kv.2 h'
    | none =>
      rw [hf]
      exact ⟨"", rfl⟩

theorem orEmptyStr_str (o : Option Json) (h : tameStrOpt o = true) :
    ∃ s, orEmptyStr o = Json.str s := by
  match o with
  | none => exact ⟨"", rfl⟩
  | some v =>
    rw [show orEmptyStr (some v) =
      (if isFalsy v then Json.str "" else v) from rfl]
    by_cases hf : isFalsy v
    · rw [if_pos hf]
      exact ⟨"", rfl⟩
    · rw [if_neg hf]
      simp only [tameStrOpt, hf, Bool.false_or] at h
      exact isStrB_shape h

theorem topicName_ok (path : List String) (t : Json)
    (h : tameStrOpt (safe_get t path) = true) :
    ∃ s, topicName path t = Except.ok s := by
  obtain ⟨s, hs⟩ := orEmptyStr_str _ h
  rw [topicName, hs]
  exact ⟨s, rfl⟩

theorem refName_ok (w : Json) (h : tameRefEntry w = true) :
    ∃ s, refName w = Except.ok s := by
  rw [refName]
  by_cases hf : isFalsy w
  · rw [if_pos hf]
    exact ⟨"", rfl⟩
  · rw [if_neg hf]
    simp only [tameRefEntry, hf, Bool.false_or] at h
    exact asStr_ok w h

theorem dict_get_obj (kvs : List (String × Json)) (k : String) (dflt : Json) :
    dict_get (Json.obj kvs) k dflt =
      Except.ok (match kvs.find? (fun kv => kv.1 == k) with
        | some kv => kv.2
        | none => dflt) := rfl

theorem extract_author_info_ok (a : Json) (h : tameAuthEntry a = true) :
    ∃ j, extract_author_info a = Except.ok j := by
  match a, h with
  | Json.obj kvs, h =>
    simp only [tameAuthEntry, Bool.and_eq_true] at h
    obtain ⟨hauth, hinst⟩ := h
    match hfA : kvs.find? (fun kv => kv.1 == "author") with
    | some kvA =>
      rw [hfA] at hauth
      have hauth' : isObjB kvA.2 = true := hauth
      obtain ⟨akvs, hA⟩ := isObjB_shape hauth'
      match hfI : kvs.find? (fun kv => kv.1 == "institutions") with
      | some kvI =>
        rw [hfI] at hinst
        have hinst' : (isFalsy kvI.2 ||
            (match kvI.2 with
             | Json.arr (x :: _) => isObjB x
             | _ => false)) = true := hinst
        by_cases hfal : isFalsy kvI.2
        · simp [extract_author_info, dict_get_obj, except_bind_ok, hfA, hfI,
            hA, hfal]
        · simp only [hfal, Bool.false_or] at hinst'
          match hv : kvI.2, hinst' with
          | Json.arr (x :: rest), hinst' =>
            obtain ⟨ikvs, hI⟩ := isObjB_shape hinst'
            simp [extract_author_info, dict_get_obj, except_bind_ok, hfA, hfI,
              hA, hv, hI, hfal, isFalsy]
      | none =>
        simp [extract_author_info, dict_get_obj, except_bind_ok, hfA, hfI, hA,
          isFalsy]
    | none =>
      match hfI : kvs.find? (fun kv => kv.1 == "institutions") with
      | some kvI =>
        rw [hfI] at hinst
        have hinst' : (isFalsy kvI.2 ||
            (match kvI.2 with
             | Json.arr (x :: _) => isObjB x
             | _ => false)) = true := hinst
        by_cases hfal : isFalsy kvI.2
        · simp [extract_author_info, dict_get_obj, except_bind_ok, hfA, hfI,
            hfal]
        · simp only [hfal, Bool.false_or] at hinst'
          match hv : kvI.2, hinst' with
          | Json.arr (x :: rest), hinst' =>
            obtain ⟨ikvs, hI⟩ := isObjB_shape hinst'
            simp [extract_author_info, dict_get_obj, except_bind_ok, hfA, hfI,
              hv, hI, hfal, isFalsy]
      | none =>
        simp [extract_author_info, dict_get_obj, except_bind_ok, hfA, hfI,
          isFalsy]

/-- Decode one inverted-index value into its position list (identity on
well-shaped values). -/
def decodePos : Json → List Int
  | Json.arr xs => xs.filterMap fun x =>
      match x with
      | Json.num n => some n
      | _ => none
  | _ => []

/-- Decode a well-shaped inverted index into entries. -/
def decodeIndex (kvs : List (String × Json)) : List (String × List Int) :=
  kvs.map fun kv => (kv.1, decodePos kv.2)

theorem decodePos_encode {xs : List Json} (h : xs.all tameIndexElem = true) :
    (decodePos (Json.arr xs)).map Json.num = xs := by
  induction xs with
  | nil => rfl
  | cons x rest ih =>
    simp only [List.all_cons, Bool.and_eq_true] at h
    obtain ⟨hx, hrest⟩ := h
    match x, hx with
    | Json.num n, _ =>
      simp only [decodePos, List.filterMap_cons] at ih ⊢
      simp only [List.map_cons]
      rw [ih hrest]

theorem encodeIndex_decodeIndex_cons (kv : String × Json)
    (rest : List (String × Json)) :
    encodeIndex (decodeIndex (kv :: rest)) =
      (kv.1, Json.arr ((decodePos kv.2).map Json.num)) ::
        encodeIndex (decodeIndex rest) := by
  simp only [encodeIndex, decodeIndex, List.map_cons, List.map_map,
    Function.comp]

theorem tameIndex_encode {kvs : List (String × Json)}
    (h : kvs.all tameIndexEntry = true) :
    encodeIndex (decodeIndex kvs) = kvs := by
  induction kvs with
  | nil => rfl
  | cons kv rest ih =>
    simp only [List.all_cons, Bool.and_eq_true] at h
    obtain ⟨hkv, hrest⟩ := h
    rw [encodeIndex_decodeIndex_cons, ih hrest]
    have hkv' : (match kv.2 with
      | Json.arr xs => xs.all tameIndexElem
      | _ => false) = true := hkv
    match hv : kv.2, hkv' with
    | Json.arr xs, hkv' =>
      rw [decodePos_encode hkv', ← hv]

theorem tameIndexEntry_nonneg {kv : String × Json}
    (h : tameIndexEntry kv = true) : ∀ p ∈ decodePos kv.2, 0 ≤ p := by
  have h' : (match kv.2 with
    | Json.arr xs => xs.all tameIndexElem
    | _ => false) = true := h
  match hv : kv.2, h' with
  | Json.arr xs, h' =>
    have hall : xs.all tameIndexElem = true := h'
    intro p hp
    simp only [decodePos, List.mem_filterMap] at hp
    obtain ⟨x, hx, hmatch⟩ := hp
    have hxe : tameIndexElem x = true := List.all_eq_true.mp hall x hx
    match x, hxe, hmatch with
    | Json.num n, hxe, hmatch =>
      have : n = p := by injection hmatch
      subst this
      simpa [tameIndexElem] using hxe

theorem decodeIndex_nonneg {kvs : List (String × Json)}
    (hall : kvs.all tameIndexEntry = true) :
    ∀ e ∈ decodeIndex kvs, ∀ p ∈ e.2, 0 ≤ p := by
  intro e he p hp
  simp only [decodeIndex, List.mem_map] at he
  obtain ⟨kv, hkv, rfl⟩ := he
  exact tameIndexEntry_nonneg (List.all_eq_true.mp hall kv hkv) p hp

theorem decodeIndex_some_nonempty {kvs : List (String × Json)}
    (hall : kvs.all tameIndexEntry = true)
    (hany : kvs.any tameIndexNonempty = true) :
    ∃ e ∈ decodeIndex kvs, e.2 ≠ [] := by
  obtain ⟨kv, hkv, hne⟩ := List.any_eq_true.mp hany
  refine ⟨(kv.1, decodePos kv.2), List.mem_map.mpr ⟨kv, hkv, rfl⟩, ?_⟩
  have hentry : (match kv.2 with
    | Json.arr xs => xs.all tameIndexElem
    | _ => false) = true := List.all_eq_true.mp hall kv hkv
  have hne' : (match kv.2 with
    | Json.arr (_ :: _) => true
    | _ => false) = true := hne
  match hv : kv.2, hne', hentry with
  | Json.arr (x :: rest), _, hentry =>
    have hx : tameIndexElem x = true := by
      have h' : (x :: rest).all tameIndexElem = true := hentry
      exact List.all_eq_true.mp h' x (List.mem_cons_self _ _)
    match x, hx with
    | Json.num n, _ =>
      simp [decodePos]

theorem extract_abstract_obj (kvs : List (String × Json)) :
    extract_abstract (some (Json.obj kvs)) =
      (if isFalsy (Json.obj kvs) then Except.ok ""
       else do
        let slots ← abstractSlots kvs
        Except.ok (String.intercalate " " slots)) := rfl

theorem extract_abstract_ok (o : Option Json) (h : tameIndexVal o = true) :
    ∃ s, extract_abstract o = Except.ok s := by
  match o with
  | none => exact ⟨"", rfl⟩
  | some v =>
    by_cases hf : isFalsy v
    · exact ⟨"", by simp [extract_abstract, hf]⟩
    · simp only [tameIndexVal, hf, Bool.false_or] at h
      match v, hf, h with
      | Json.obj kvs, hf, h =>
        simp only [Bool.and_eq_true] at h
        obtain ⟨hall, hany⟩ := h
        obtain ⟨slots, hslots⟩ := abstractSlots_ok (decodeIndex kvs)
          (decodeIndex_nonneg hall) (decodeIndex_some_nonempty hall hany)
        rw [tameIndex_encode hall] at hslots
        refine ⟨String.intercalate " " slots, ?_⟩
        rw [extract_abstract_obj, if_neg hf, hslots, except_bind_ok]

theorem exists_ok_of_eq {α : Type} {e : Except String α} {v : α}
    (h : e = Except.ok v) : ∃ y, e = Except.ok y := ⟨v, h⟩

theorem extract_paper_info_tame_total (paper : Json)
    (h : tamePaper paper = true) :
    ∃ row, extract_paper_info paper = Except.ok row := by
  simp only [tamePaper, Bool.and_eq_true] at h
  obtain ⟨⟨⟨⟨⟨⟨hidx, hauth⟩, hkw⟩, hcon⟩, htop⟩, href⟩, hfund⟩ := h
  obtain ⟨sAbs, hAbs⟩ := extract_abstract_ok _ hidx
  obtain ⟨auths, hAuths, hAuthsOk⟩ := pyIter_ok tameAuthEntry _ hauth
  obtain ⟨kws, hKws, hKwsOk⟩ := pyIter_ok tameNamedEntry _ hkw
  obtain ⟨cons, hCons, hConsOk⟩ := pyIter_ok tameNamedEntry _ hcon
  obtain ⟨tops, hTops, hTopsOk⟩ := pyIter_ok tameTopicEntry _ htop
  obtain ⟨refs, hRefs, hRefsOk⟩ := pyIter_ok tameRefEntry _ href
  obtain ⟨funds, hFunds, hFundsOk⟩ := pyIter_ok tameFundEntry _ hfund
  have hTops4 : ∀ t ∈ tops,
      ((tameStrOpt (safe_get t ["display_name"]) = true ∧
        tameStrOpt (safe_get t ["subfield", "display_name"]) = true) ∧
       tameStrOpt (safe_get t ["field", "display_name"]) = true) ∧
      tameStrOpt (safe_get t ["domain", "display_name"]) = true := by
    intro t ht
    have h' := hTopsOk t ht
    simp only [tameTopicEntry, Bool.and_eq_true] at h'
    exact h'
  obtain ⟨affs, hAffs, -⟩ := mapExcept_ok extract_author_info
    (fun _ => True) auths (fun a ha => by
      obtain ⟨j, hj⟩ := extract_author_info_ok a (hAuthsOk a ha)
      exact ⟨j, hj, trivial⟩)
  obtain ⟨conNames, hConNames, -⟩ := mapExcept_ok entryName
    (fun _ => True) cons (fun c hc => by
      obtain ⟨s, hs⟩ := entryName_ok c (hConsOk c hc)
      exact ⟨s, hs, trivial⟩)
  obtain ⟨kwNames, hKwNames, -⟩ := mapExcept_ok entryName
    (fun _ => True) kws (fun c hc => by
      obtain ⟨s, hs⟩ := entryName_ok c (hKwsOk c hc)
      exact ⟨s, hs, trivial⟩)
  obtain ⟨topNames, hTopNames, -⟩ := mapExcept_ok (topicName ["display_name"])
    (fun _ => True) tops (fun t ht => by
      obtain ⟨s, hs⟩ := topicName_ok ["display_name"] t (hTops4 t ht).1.1.1
      exact ⟨s, hs, trivial⟩)
  obtain ⟨subNames, hSubNames, -⟩ := mapExcept_ok
    (topicName ["subfield", "display_name"])
    (fun _ => True) tops (fun t ht => by
      obtain ⟨s, hs⟩ := topicName_ok ["subfield", "display_name"] t
        (hTops4 t ht).1.1.2
      exact ⟨s, hs, trivial⟩)
  obtain ⟨fieldNames, hFieldNames, -⟩ := mapExcept_ok
    (topicName ["field", "display_name"])
    (fun _ => True) tops (fun t ht => by
      obtain ⟨s, hs⟩ := topicName_ok ["field", "display_name"] t
        (hTops4 t ht).1.2
      exact ⟨s, hs, trivial⟩)
  obtain ⟨domNames, hDomNames, -⟩ := mapExcept_ok
    (topicName ["domain", "display_name"])
    (fun _ => True) tops (fun t ht => by
      obtain ⟨s, hs⟩ := topicName_ok ["domain", "display_name"] t
        (hTops4 t ht).2
      exact ⟨s, hs, trivial⟩)
  obtain ⟨refNames, hRefNames, -⟩ := mapExcept_ok refName
    (fun _ => True) refs (fun w hw => by
      obtain ⟨s, hs⟩ := refName_ok w (hRefsOk w hw)
      exact ⟨s, hs, trivial⟩)
  obtain ⟨fundNames, hFundNames, -⟩ := mapExcept_ok
    (topicName ["display_name"])
    (fun _ => True) funds (fun f hf => by
      obtain ⟨s, hs⟩ := topicName_ok ["display_name"] f (hFundsOk f hf)
      exact ⟨s, hs, trivial⟩)
  apply exists_ok_of_eq
  rw [extract_paper_info]
  simp only [hAbs, hAuths, hKws, hCons, hTops, hAffs, hConNames, hKwNames,
    hTopNames, hSubNames, hFieldNames, hDomNames, hRefs, hRefNames, hFunds,
    hFundNames, except_bind_ok]
  rfl

/-- C2 (amended): `extract_paper_info` absorbs missing nested keys,
non-mapping values at the safe-path lookups and empty multi-valued lists,
returning a row of empty/default values — it is total on every record of
the `tamePaper` class, which allows all those irregularities, including an
empty position list alongside a non-empty one.  (It is not total outright:
see the counterexample, where the only position lists present are empty.) -/
theorem extract_paper_info_total_on_tame :
    (∀ paper : Json, tamePaper paper = true →
      ∃ row, extract_paper_info paper = Except.ok row) ∧
    tamePaper (Json.obj [("title", Json.str "t"),
      ("authorships", Json.arr []), ("open_access", Json.num 3),
      ("abstract_inverted_index", Json.obj [("a", Json.arr []),
        ("b", Json.arr [Json.num 0])])]) = true :=
  ⟨extract_paper_info_tame_total, rfl⟩

/-- C2 (counterexample): a record whose inverted index has a single entry
with an empty position list.  `flatten` is not total: Python's
`max()` over the empty position sequence raises `ValueError`, which the
claim's own list of absorbed irregularities ("inverted-index entries whose
position lists are empty") contradicts. -/
theorem extract_paper_info_empty_positions_raises :
    extract_paper_info (Json.obj [("abstract_inverted_index",
      Json.obj [("hello", Json.arr [])])]) =
      Except.error "ValueError: max() arg is an empty sequence" := rfl

/-- Witness for C2 (amended) at a concrete tame record. -/
theorem extract_paper_info_total_on_tame_witness :
    tamePaper (Json.obj [("title", Json.str "t")]) = true ∧
    ∃ row, extract_paper_info (Json.obj [("title", Json.str "t")]) =
      Except.ok row :=
  ⟨rfl, extract_paper_info_total_on_tame.1 (Json.obj [("title", Json.str "t")])
    rfl⟩

/-! ### Shape of the produced row (multi-valued field serialization) -/

/-- The error propagation of `>>=` on `Except`. -/
theorem except_bind_error (e : String) (f : α → Except String β) :
    ((Except.error e : Except String α) >>= f) = Except.error e := rfl

theorem except_bind_eq_ok {α β : Type} {x : Except String α}
    {f : α → Except String β} {b : β}
    (h : (x >>= f) = Except.ok b) : ∃ a, x = Except.ok a ∧ f a = Except.ok b := by
  cases x with
  | error e => exact Except.noConfusion h
  | ok a => exact ⟨a, rfl, h⟩

/-- Field lookup on a produced row (a Python dict). -/
def fieldOf (row : Json) (k : String) : Json :=
  match row with
  | Json.obj kvs =>
    (match kvs.find? (fun kv => kv.1 == k) with
     | some kv => kv.2
     | none => Json.null)
  | _ => Json.null

/-- C8 (amended): whenever flattening succeeds, the multi-valued sub-fields
`topics`, `concepts`, `keywords`, `funding_details` and `referenced_works`
(and also `subfields`, `fields`, `domains`) of the produced row are single
`"; "`-joined strings; the authors sub-field (`affiliations`), however, is
a nested list of per-author mappings, not a joined string. -/
theorem multivalued_fields_are_joined_strings (paper row : Json)
    (h : extract_paper_info paper = Except.ok row) :
    (∃ l, fieldOf row "topics" = Json.str (joinSemi l)) ∧
    (∃ l, fieldOf row "concepts" = Json.str (joinSemi l)) ∧
    (∃ l, fieldOf row "keywords" = Json.str (joinSemi l)) ∧
    (∃ l, fieldOf row "subfields" = Json.str (joinSemi l)) ∧
    (∃ l, fieldOf row "fields" = Json.str (joinSemi l)) ∧
    (∃ l, fieldOf row "domains" = Json.str (joinSemi l)) ∧
    (∃ l, fieldOf row "funding_details" = Json.str (joinSemi l)) ∧
    (∃ l, fieldOf row "referenced_works" = Json.str (joinSemi l)) ∧
    (∃ l, fieldOf row "affiliations" = Json.arr l) := by
  rw [extract_paper_info] at h
  obtain ⟨sAbs, hAbs, h⟩ := except_bind_eq_ok h
  obtain ⟨auths, hAuths, h⟩ := except_bind_eq_ok h
  obtain ⟨kws, hKws, h⟩ := except_bind_eq_ok h
  obtain ⟨cons, hCons, h⟩ := except_bind_eq_ok h
  obtain ⟨tops, hTops, h⟩ := except_bind_eq_ok h
  obtain ⟨affs, hAffs, h⟩ := except_bind_eq_ok h
  obtain ⟨conNames, hConNames, h⟩ := except_bind_eq_ok h
  obtain ⟨kwNames, hKwNames, h⟩ := except_bind_eq_ok h
  obtain ⟨topNames, hTopNames, h⟩ := except_bind_eq_ok h
  obtain ⟨subNames, hSubNames, h⟩ := except_bind_eq_ok h
  obtain ⟨fieldNames, hFieldNames, h⟩ := except_bind_eq_ok h
  obtain ⟨domNames, hDomNames, h⟩ := except_bind_eq_ok h
  obtain ⟨refs, hRefs, h⟩ := except_bind_eq_ok h
  obtain ⟨refNames, hRefNames, h⟩ := except_bind_eq_ok h
  obtain ⟨funds, hFunds, h⟩ := except_bind_eq_ok h
  obtain ⟨fundNames, hFundNames, h⟩ := except_bind_eq_ok h
  injection h with h
  subst h
  exact ⟨⟨topNames, rfl⟩, ⟨conNames, rfl⟩, ⟨kwNames, rfl⟩, ⟨subNames, rfl⟩,
    ⟨fieldNames, rfl⟩, ⟨domNames, rfl⟩, ⟨fundNames, rfl⟩, ⟨refNames, rfl⟩,
    ⟨affs, rfl⟩⟩

/-- C8 (counterexample): for a record with one authorship, the `affiliations`
sub-field of the produced row — the serialization of the authors — is a
list (of one per-author mapping), not a `"; "`-joined string. -/
theorem affiliations_field_is_not_a_string :
    isArrB (fieldOf
      (match extract_paper_info (Json.obj [("authorships",
        Json.arr [Json.obj []])]) with
       | Except.ok row => row
       | Except.error _ => Json.null) "affiliations") = true ∧
    isStrB (fieldOf
      (match extract_paper_info (Json.obj [("authorships",
        Json.arr [Json.obj []])]) with
       | Except.ok row => row
       | Except.error _ => Json.null) "affiliations") = false :=
  ⟨rfl, rfl⟩

/-- The row produced for the empty record: every safe-path field `None`,
every joined field the empty string, `affiliations` the empty list. -/
def emptyRow : Json :=
  Json.obj [
    ("id", Json.null), ("doi", Json.null), ("title", Json.null),
    ("abstract", Json.str ""), ("publication_year", Json.null),
    ("publication_date", Json.null), ("created_date", Json.null),
    ("type", Json.null), ("cited_by_count", Json.null),
    ("is_retracted", Json.null), ("is_paratext", Json.null),
    ("journal", Json.null), ("author_count", Json.num 0),
    ("open_access", Json.null), ("oa_status", Json.null),
    ("affiliations", Json.arr []), ("concepts", Json.str ""),
    ("keywords", Json.str ""), ("topics", Json.str ""),
    ("subfields", Json.str ""), ("fields", Json.str ""),
    ("domains", Json.str ""), ("referenced_works_count", Json.num 0),
    ("referenced_works", Json.str ""), ("funding_details", Json.str ""),
    ("license", Json.null), ("metrics", Json.obj []),
    ("host_venue_issn", Json.null), ("publisher", Json.null),
    ("relevance_score", Json.null), ("language", Json.null),
    ("host_organization_name", Json.null), ("is_accepted", Json.null),
    ("type_crossref", Json.null), ("indexed_in", Json.null)]

/-- Witness for C8 (amended) at the empty record. -/
theorem multivalued_fields_are_joined_strings_witness :
    (∃ l, fieldOf emptyRow "topics" = Json.str (joinSemi l)) ∧
    (∃ l, fieldOf emptyRow "concepts" = Json.str (joinSemi l)) ∧
    (∃ l, fieldOf emptyRow "keywords" = Json.str (joinSemi l)) ∧
    (∃ l, fieldOf emptyRow "subfields" = Json.str (joinSemi l)) ∧
    (∃ l, fieldOf emptyRow "fields" = Json.str (joinSemi l)) ∧
    (∃ l, fieldOf emptyRow "domains" = Json.str (joinSemi l)) ∧
    (∃ l, fieldOf emptyRow "funding_details" = Json.str (joinSemi l)) ∧
    (∃ l, fieldOf emptyRow "referenced_works" = Json.str (joinSemi l)) ∧
    (∃ l, fieldOf emptyRow "affiliations" = Json.arr l) :=
  multivalued_fields_are_joined_strings (Json.obj []) emptyRow rfl
